import Mathlib

/-!
Verification development for the ai-tennis-companion repository.

The repository ships a browser frontend (frontend/app.js, tennisviz-app.js,
the pattern-search engine) together with a Dockerfile and requirements file
that reference a Python backend (backend.main) implementing the stroke
detection and classification pipeline; that backend module itself is not part
of the available sources.  The pipeline components below are therefore
modelled from the specification document, while the frontend functions are
embedded directly from the JavaScript sources.

Numeric convention: the sources and the spec use floating-point seconds and
confidences in [0, 1].  The embedding uses fixed-point integers: times are in
milliseconds and confidences, scores and landmark coordinates are in
thousandths, so the maximal confidence 1.0 is the integer 1000.  All claim
statements are about ordering, counting and branching, which this fixed-point
model preserves.
-/

namespace TennisCore

/-- Modelled from the spec: the stroke label enum of the StrokeEvent data
model (section 3). -/
inductive StrokeType where
  | forehand
  | backhand
  | serve
  | volley
  | unknown
deriving DecidableEq

/-- Modelled from the spec: a named landmark with 2D position and detection
confidence (Frame data model, section 3).  Coordinates and confidence are in
thousandths. -/
structure Landmark where
  name : String
  x : ℤ
  y : ℤ
  conf : ℤ
deriving DecidableEq

/-- Modelled from the spec: one per-frame sample of the keypoint stream
produced by the external pose collaborator.  An empty keypoint list is the
explicit no-detection marker.  Timestamps are in milliseconds. -/
structure Frame where
  index : ℕ
  timestamp_sec : ℤ
  keypoints : List Landmark
deriving DecidableEq

/-- Modelled from the spec: the configuration surface of section 6 (smoothing,
landmark confidence floor, onset and offset energy thresholds, duration
bounds, ambiguity margin, classifier score floor, idle gap), plus the
peak-hold sample count of the segmenter and the cap applied to ambiguous
confidences together with the certain threshold it stays below. -/
structure Config where
  smoothing_alpha : ℤ
  landmark_conf_floor : ℤ
  onset : ℤ
  offset : ℤ
  peak_hold_n : ℕ
  min_duration : ℤ
  max_duration : ℤ
  ambiguity_margin : ℤ
  ambiguous_cap : ℤ
  certain_threshold : ℤ
  score_floor : ℤ
  unknown_floor : ℤ
  idle_gap : ℤ
deriving DecidableEq

/-- Modelled from the spec: a conditioned frame after forward-fill and
smoothing; keypoints are an association list from landmark name to position,
and a frame with zero usable landmarks is flagged. -/
structure ConditionedFrame where
  timestamp_sec : ℤ
  keypoints : List (String × ℤ × ℤ)
  no_detection : Bool
deriving DecidableEq

/-- Replace the value stored for a landmark name, or append it. -/
def upsertLm : List (String × ℤ × ℤ) → String → ℤ × ℤ → List (String × ℤ × ℤ)
  | [], n, v => [(n, v)]
  | (m, w) :: rest, n, v =>
    if m = n then (n, v) :: rest else (m, w) :: upsertLm rest n v

/-- Modelled from the spec: exponential smoothing step of the Keypoint
Conditioner (section 4.1), in fixed point with alpha in thousandths. -/
def smoothTo (alpha prev cur : ℤ) : ℤ :=
  prev + alpha * (cur - prev) / 1000

/-- Modelled from the spec: one Conditioner step.  Landmarks whose confidence
is below the configured floor are treated as missing; the running state holds
the last valid (smoothed) value per landmark, so emitting the state snapshot
realises forward-fill.  A frame with zero usable landmarks leaves the state
unchanged and is flagged. -/
def conditionStep (cfg : Config) (state : List (String × ℤ × ℤ)) (f : Frame) :
    List (String × ℤ × ℤ) × ConditionedFrame :=
  let usable := f.keypoints.filter (fun l => cfg.landmark_conf_floor ≤ l.conf)
  let state2 := usable.foldl (fun st l =>
    match st.lookup l.name with
    | some (px, py) =>
      upsertLm st l.name
        (smoothTo cfg.smoothing_alpha px l.x, smoothTo cfg.smoothing_alpha py l.y)
    | none => upsertLm st l.name (l.x, l.y)) state
  (state2, ⟨f.timestamp_sec, state2, usable.isEmpty⟩)

/-- Run the Conditioner over a session, threading the forward-fill state. -/
def conditionGo (cfg : Config) :
    List (String × ℤ × ℤ) → List Frame → List ConditionedFrame
  | _, [] => []
  | st, f :: rest =>
    let p := conditionStep cfg st f
    p.2 :: conditionGo cfg p.1 rest

/-- Modelled from the spec: the Keypoint Conditioner contract (section 4.1),
one ConditionedFrame per input Frame. -/
def conditionFrames (cfg : Config) (frames : List Frame) : List ConditionedFrame :=
  conditionGo cfg [] frames

/-- Modelled from the spec: a motion sample with scalar motion energy
(section 3). -/
structure MotionSample where
  timestamp_sec : ℤ
  energy : ℤ
deriving DecidableEq

/-- Modelled from the spec: per-landmark weights favouring the racket-arm
landmarks (wrist, elbow, shoulder) over the rest (section 4.2). -/
def lmWeight (n : String) : ℤ :=
  if n = "right_wrist" ∨ n = "left_wrist" then 4
  else if n = "right_elbow" ∨ n = "left_elbow" then 3
  else if n = "right_shoulder" ∨ n = "left_shoulder" then 2
  else 1

/-- Modelled from the spec: motion energy between two consecutive conditioned
frames, a weighted sum of per-landmark displacement magnitudes (section 4.2);
magnitude is the L1 displacement in this fixed-point model. -/
def frameEnergy (prev cur : List (String × ℤ × ℤ)) : ℤ :=
  cur.foldl (fun acc kp =>
    match prev.lookup kp.1 with
    | some (px, py) => acc + lmWeight kp.1 * (|kp.2.1 - px| + |kp.2.2 - py|)
    | none => acc) 0

/-- Energy samples for all frames after the first. -/
def extractGo : ConditionedFrame → List ConditionedFrame → List MotionSample
  | _, [] => []
  | p, f :: rest =>
    ⟨f.timestamp_sec, frameEnergy p.keypoints f.keypoints⟩ :: extractGo f rest

/-- Modelled from the spec: the Motion Signal Extractor (section 4.2); the
first frame has energy 0 by definition. -/
def extractMotion : List ConditionedFrame → List MotionSample
  | [] => []
  | f :: rest => ⟨f.timestamp_sec, 0⟩ :: extractGo f rest

/-- Modelled from the spec: a candidate stroke window produced by the
segmenter (section 3). -/
structure CandidateWindow where
  start_sec : ℤ
  peak_sec : ℤ
  end_sec : ℤ
  peak_energy : ℤ
deriving DecidableEq

/-- Modelled from the spec: the Event Segmenter states (section 4.3).  The
non-idle states carry the tentative window start, the running peak position
and energy, the previous energy value, and (while rising) the count of
consecutive non-increasing samples. -/
inductive SegState where
  | idle : SegState
  | rising (start_sec peak_sec peak_energy last_energy : ℤ) (flat : ℕ) : SegState
  | peakHeld (start_sec peak_sec peak_energy last_energy : ℤ) : SegState
  | falling (start_sec peak_sec peak_energy last_energy : ℤ) : SegState
deriving DecidableEq

/-- Tentative start of the window currently being built, if any. -/
def SegState.windowStart : SegState → Option ℤ
  | .idle => none
  | .rising s _ _ _ _ => some s
  | .peakHeld s _ _ _ => some s
  | .falling s _ _ _ => some s

/-- Whether the state is RISING. -/
def SegState.isRising : SegState → Bool
  | .rising _ _ _ _ _ => true
  | _ => false

/-- Modelled from the spec: one transition of the segmenter state machine
(section 4.3).  IDLE moves to RISING when energy crosses above onset; RISING
moves to PEAK_HELD after the energy has stopped increasing for the configured
number of samples; PEAK_HELD moves to FALLING when energy decreases; FALLING
closes and emits the window when energy drops below offset, applying the
duration rejection policy.  A secondary energy spike in PEAK_HELD or FALLING
moves back to RISING keeping the same window start (window extension). -/
def segStep (cfg : Config) (st : SegState) (s : MotionSample) :
    SegState × Option CandidateWindow :=
  match st with
  | .idle =>
    if cfg.onset < s.energy then
      (.rising s.timestamp_sec s.timestamp_sec s.energy s.energy 0, none)
    else (.idle, none)
  | .rising start peak peakE lastE flat =>
    let peak2 := if peakE < s.energy then s.timestamp_sec else peak
    let peakE2 := if peakE < s.energy then s.energy else peakE
    if lastE < s.energy then (.rising start peak2 peakE2 s.energy 0, none)
    else if cfg.peak_hold_n ≤ flat + 1 then (.peakHeld start peak2 peakE2 s.energy, none)
    else (.rising start peak2 peakE2 s.energy (flat + 1), none)
  | .peakHeld start peak peakE lastE =>
    if lastE < s.energy then (.rising start peak peakE s.energy 0, none)
    else if s.energy < lastE then (.falling start peak peakE s.energy, none)
    else (.peakHeld start peak peakE s.energy, none)
  | .falling start peak peakE lastE =>
    if s.energy < cfg.offset then
      (.idle,
        if cfg.min_duration ≤ s.timestamp_sec - start ∧
            s.timestamp_sec - start ≤ cfg.max_duration then
          some ⟨start, peak, s.timestamp_sec, peakE⟩
        else none)
    else if lastE < s.energy then (.rising start peak peakE s.energy 0, none)
    else (.falling start peak peakE s.energy, none)

/-- Run the segmenter from a state; an unterminated window at end of session
is discarded, matching the terminal policy of section 4.3. -/
def segRun (cfg : Config) : SegState → List MotionSample → List CandidateWindow
  | _, [] => []
  | st, s :: rest =>
    match segStep cfg st s with
    | (st2, some w) => w :: segRun cfg st2 rest
    | (st2, none) => segRun cfg st2 rest

/-- Modelled from the spec: the Event Segmenter contract (section 4.3),
starting in IDLE. -/
def segment (cfg : Config) (samples : List MotionSample) : List CandidateWindow :=
  segRun cfg .idle samples

/-- Clamp a fixed-point score to the confidence range [0, 1000], the model of
normalising to [0, 1]. -/
def clampConf (x : ℤ) : ℤ := max 0 (min 1000 x)

/-- Select the highest-scoring entry of a score list, returning it together
with the remaining entries. -/
def pickBest : List (StrokeType × ℤ) → Option ((StrokeType × ℤ) × List (StrokeType × ℤ))
  | [] => none
  | x :: rest =>
    match pickBest rest with
    | none => some (x, [])
    | some (b, others) =>
      if b.2 ≤ x.2 then some (x, b :: others) else some (b, x :: others)

/-- Modelled from the spec: the per-label feature scorer of the Stroke
Classifier (section 4.4).  The spec fixes the feature set (peak energy,
duration, velocity profile shape) and the scorer shape (a deterministic score
per candidate label); the concrete weights below are representative
configuration, as the spec leaves them as tuning parameters. -/
def scoreWindow (w : CandidateWindow) : List (StrokeType × ℤ) :=
  let dur := w.end_sec - w.start_sec
  let riseShare := if dur ≤ 0 then 0 else 1000 * (w.peak_sec - w.start_sec) / dur
  [(.serve, clampConf (w.peak_energy / 4 + riseShare / 4)),
   (.forehand, clampConf (w.peak_energy / 2)),
   (.backhand, clampConf (w.peak_energy / 2 - 50)),
   (.volley, clampConf (1000 - dur))]

/-- Modelled from the spec: label selection of the Stroke Classifier
(section 4.4).  The label with the highest score is selected and its score,
normalised to the confidence range, is the confidence; if the best score is
below the configured floor the explicit failure value unknown is emitted; if
the top two scores are within the ambiguity margin the confidence is capped
at the configured cap, which sits below the certain threshold. -/
def classifyScores (cfg : Config) (scores : List (StrokeType × ℤ)) : StrokeType × ℤ :=
  match pickBest scores with
  | none => (.unknown, 0)
  | some (best, rest) =>
    if best.2 < cfg.score_floor then (.unknown, clampConf best.2)
    else
      let second := match pickBest rest with
        | none => 0
        | some (b2, _) => b2.2
      let conf := clampConf best.2
      if best.2 - second < cfg.ambiguity_margin then (best.1, min conf cfg.ambiguous_cap)
      else (best.1, conf)

/-- Modelled from the spec: a finalized stroke event of the Timeline
(section 3), restricted to the fields the claims concern. -/
structure StrokeEvent where
  stroke_type : StrokeType
  start_sec : ℤ
  end_sec : ℤ
  contact_time_sec : ℤ
  confidence : ℤ
  swing_speed : ℤ
deriving DecidableEq

/-- Modelled from the spec: classification of one candidate window into a
stroke event; contact time is the window peak and swing speed is derived from
the peak energy (sections 4.4 and 4.5). -/
def classifyWindow (cfg : Config) (w : CandidateWindow) : StrokeEvent :=
  let r := classifyScores cfg (scoreWindow w)
  ⟨r.1, w.start_sec, w.end_sec, w.peak_sec, r.2, w.peak_energy⟩

/-- Ordering of stroke events by start time, the Timeline order. -/
def startLE (a b : StrokeEvent) : Prop := a.start_sec ≤ b.start_sec

instance : DecidableRel startLE :=
  fun a b => inferInstanceAs (Decidable (a.start_sec ≤ b.start_sec))

instance : IsTotal StrokeEvent startLE := ⟨fun a b => le_total a.start_sec b.start_sec⟩

instance : IsTrans StrokeEvent startLE := ⟨fun _ _ _ h1 h2 => le_trans h1 h2⟩

/-- Two events overlap when their half-open spans from start_sec to end_sec
intersect. -/
def overlaps (a b : StrokeEvent) : Prop :=
  a.start_sec < b.end_sec ∧ b.start_sec < a.end_sec

instance (a b : StrokeEvent) : Decidable (overlaps a b) :=
  inferInstanceAs (Decidable (a.start_sec < b.end_sec ∧ b.start_sec < a.end_sec))

/-- Modelled from the spec: the Assembler retention policy for unknown events
(section 4.5): unknown-labelled events below the low confidence floor are
dropped, everything else is retained. -/
def keepEvent (cfg : Config) (e : StrokeEvent) : Bool :=
  !(decide (e.stroke_type = .unknown) && decide (e.confidence < cfg.unknown_floor))

/-- Modelled from the spec: the Assembler deduplication sweep over the
start-sorted event list (section 4.5).  The first argument is the event
currently retained; when it overlaps the next event the one with higher
confidence survives (selection, never fusion), otherwise the retained event
is emitted and the sweep moves on. -/
def dedupGo : StrokeEvent → List StrokeEvent → List StrokeEvent
  | a, [] => [a]
  | a, b :: rest =>
    if overlaps a b then
      if a.confidence < b.confidence then dedupGo b rest else dedupGo a rest
    else a :: dedupGo b rest

/-- Deduplicate a start-sorted event list. -/
def dedupOverlaps : List StrokeEvent → List StrokeEvent
  | [] => []
  | a :: rest => dedupGo a rest

/-- Modelled from the spec: the Timeline Assembler (section 4.5): drop
low-confidence unknowns, sort by start_sec, resolve overlaps by keeping the
higher-confidence event. -/
def assemble (cfg : Config) (events : List StrokeEvent) : List StrokeEvent :=
  dedupOverlaps (List.insertionSort startLE (events.filter (keepEvent cfg)))

/-- Modelled from the spec: session-level analytics (section 3 and 4.6),
restricted to the aggregates the claims concern: per-type counts, rally
count, and swing-speed aggregate. -/
structure SessionAnalytics where
  forehand_count : ℕ
  backhand_count : ℕ
  serve_count : ℕ
  volley_count : ℕ
  unknown_count : ℕ
  rally_count : ℕ
  mean_swing_speed : ℤ
deriving DecidableEq

/-- Number of timeline events with the given stroke type. -/
def countType (tl : List StrokeEvent) (ty : StrokeType) : ℕ :=
  tl.countP (fun e => decide (e.stroke_type = ty))

/-- Count the rally boundaries: gaps between consecutive start times that
exceed the idle-gap threshold (section 4.6). -/
def rallyBoundaries (gap : ℤ) : StrokeEvent → List StrokeEvent → ℕ
  | _, [] => 0
  | p, e :: rest =>
    (if gap < e.start_sec - p.start_sec then 1 else 0) + rallyBoundaries gap e rest

/-- Modelled from the spec: rally segmentation (section 4.6): a new rally
starts after a gap in start_sec exceeding the idle-gap threshold, so a
nonempty timeline has one rally plus one per boundary. -/
def rallyCount (gap : ℤ) : List StrokeEvent → ℕ
  | [] => 0
  | e :: rest => 1 + rallyBoundaries gap e rest

/-- Modelled from the spec: the Analytics Aggregator (section 4.6), a pure
function of the Timeline. -/
def aggregate (cfg : Config) (tl : List StrokeEvent) : SessionAnalytics :=
  ⟨countType tl .forehand, countType tl .backhand, countType tl .serve,
   countType tl .volley, countType tl .unknown,
   rallyCount cfg.idle_gap tl,
   (tl.map (fun e => e.swing_speed)).sum / (tl.length : ℤ)⟩

/-- Per-type count accessor of the analytics aggregate. -/
def SessionAnalytics.count (an : SessionAnalytics) : StrokeType → ℕ
  | .forehand => an.forehand_count
  | .backhand => an.backhand_count
  | .serve => an.serve_count
  | .volley => an.volley_count
  | .unknown => an.unknown_count

/-- Modelled from the spec: the structural error taxonomy of section 7 that
aborts a run at the pipeline entry point. -/
inductive StructuralError where
  | emptySession
  | nonMonotonicTimestamps
deriving DecidableEq

/-- Strict monotonicity check on the frame timestamps. -/
def timesMonotone : List Frame → Bool
  | [] => true
  | [_] => true
  | a :: b :: rest => a.timestamp_sec < b.timestamp_sec && timesMonotone (b :: rest)

/-- The successful pipeline body: Conditioner, Motion Extractor, Segmenter,
Classifier, Assembler, Aggregator, in the strict forward order of section 2. -/
def pipelineRun (cfg : Config) (frames : List Frame) :
    List StrokeEvent × SessionAnalytics :=
  let timeline :=
    assemble cfg
      ((segment cfg (extractMotion (conditionFrames cfg frames))).map (classifyWindow cfg))
  (timeline, aggregate cfg timeline)

/-- Modelled from the spec: the pipeline entry point (sections 6 and 7): an
empty session or non-monotonic timestamps fail fast with a structural error
before any output is produced; otherwise the run returns the complete
Timeline plus SessionAnalytics pair. -/
def analyzeSession (cfg : Config) (frames : List Frame) :
    Except StructuralError (List StrokeEvent × SessionAnalytics) :=
  if frames.isEmpty then .error .emptySession
  else if timesMonotone frames = false then .error .nonMonotonicTimestamps
  else .ok (pipelineRun cfg frames)

end TennisCore

namespace TennisApp

/-- Model of the JavaScript String.startsWith check used by the upload
handler, on the character list of the string. -/
def strStartsWith (s p : String) : Bool :=
  p.toList.isPrefixOf s.toList

/-- Embedded from frontend/app.js capitalizeFirst: upper-case the first
character and keep the rest. -/
def capitalizeFirst (s : String) : String :=
  match s.toList with
  | [] => ""
  | c :: rest => String.mk (c.toUpper :: rest)

/-- Lower-casing of a stroke label, the model of toLowerCase applied to
stroke names in frontend/app.js. -/
def lowerStr (s : String) : String :=
  String.mk (s.toList.map Char.toLower)

/-- A timeline entry as consumed by frontend/app.js: a stroke name, its start
time (milliseconds in this fixed-point model) and a confidence in
thousandths. -/
structure TimelineStroke where
  stroke : String
  start_sec : ℤ
  confidence : ℤ
deriving DecidableEq

/-- Increment the counter stored under a key in an association list,
appending a fresh key at the end, mirroring JavaScript object key insertion
order in calculateStats. -/
def bumpCount : List (String × ℕ) → String → List (String × ℕ)
  | [], k => [(k, 1)]
  | (m, c) :: rest, k =>
    if m = k then (m, c + 1) :: rest else (m, c) :: bumpCount rest k

/-- Embedded from frontend/app.js calculateStats: the Total Strokes entry
followed by per-type counts keyed by the capitalized stroke name, in first
occurrence order. -/
def calculateStats (timeline : List TimelineStroke) : List (String × ℕ) :=
  ("Total Strokes", timeline.length) ::
    timeline.foldl (fun acc s => bumpCount acc (capitalizeFirst s.stroke)) []

/-- One draw of the metric pattern Math.floor(random * scale + base) from
frontend/app.js, with Math.random modelled as a stream of fixed-point values
in thousandths, so draw k stands for the real number rng k / 1000. -/
def randMetric (rng : ℕ → ℤ) (i : ℕ) (scale base : ℤ) : ℤ :=
  rng i * scale / 1000 + base

/-- The enhanced per-stroke card built by frontend/app.js
generateEnhancedStrokeData: labelled metric values with their unit suffix,
feedback lines, and a description. -/
structure EnhancedData where
  metrics : List (String × ℤ × String)
  feedback : List String
  description : String
deriving DecidableEq

/-- Embedded from frontend/app.js generateEnhancedStrokeData: every metric
value is drawn from Math.random (modelled by the stream rng), and the branch
is selected by the lower-cased stroke type with a constant fallback card. -/
def generateEnhancedStrokeData (strokeType : String) (rng : ℕ → ℤ) : EnhancedData :=
  let forehandData : EnhancedData :=
    ⟨[("Power", randMetric rng 0 30 70, "%"),
      ("Accuracy", randMetric rng 1 20 75, "%"),
      ("Spin Rate", randMetric rng 2 500 2000, " rpm"),
      ("Contact Point", randMetric rng 3 20 80, "%")],
     ["Good follow-through on this stroke",
      "Try to make contact slightly earlier",
      "Excellent racquet head speed"],
     "Cross-court winner"⟩
  let backhandData : EnhancedData :=
    ⟨[("Balance", randMetric rng 4 15 80, "%"),
      ("Rotation", randMetric rng 5 25 70, "%"),
      ("Timing", randMetric rng 6 20 75, "%"),
      ("Extension", randMetric rng 7 30 65, "%")],
     ["Strong two-handed technique",
      "Good shoulder rotation",
      "Consider higher follow-through"],
     "Down-the-line approach"⟩
  let serveData : EnhancedData :=
    ⟨[("Toss Height", randMetric rng 8 20 180, " cm"),
      ("Speed", randMetric rng 9 30 90, " mph"),
      ("Placement", randMetric rng 10 25 70, "%"),
      ("Consistency", randMetric rng 11 20 75, "%")],
     ["Consistent toss placement",
      "Good knee bend and drive",
      "Work on pronation timing"],
     "First serve to T"⟩
  if strokeType = "forehand" then forehandData
  else if strokeType = "backhand" then backhandData
  else if strokeType = "serve" then serveData
  else
    ⟨[("Quality", 75, "%"), ("Timing", 80, "%")],
     ["Keep practicing this stroke"],
     "Standard execution"⟩

/-- The analytics screen of frontend/app.js over one timeline: the
deterministic stats of calculateStats next to the per-stroke enhanced cards,
each card consuming its own block of twelve Math.random draws from the
stream. -/
def renderAnalysis (timeline : List TimelineStroke) (rng : ℕ → ℤ) :
    List (String × ℕ) × List EnhancedData :=
  (calculateStats timeline,
   timeline.enum.map (fun p =>
     generateEnhancedStrokeData (lowerStr p.2.stroke) (fun j => rng (12 * p.1 + j))))

/-- A selected file as seen by frontend/app.js handleVideoUpload: its MIME
type string and its size in bytes. -/
structure UploadFile where
  type : String
  size : ℕ
deriving DecidableEq

/-- The slice of TennisAI instance state that handleVideoUpload reads or
writes: the analysis-in-progress flag, the stored video and the stored
analysis data. -/
structure UploadState where
  isAnalyzing : Bool
  currentVideo : Option UploadFile
  analysisData : Option (List TimelineStroke)
deriving DecidableEq

/-- The user-visible outcome of handleVideoUpload: an early silent return, an
error toast with its message, or acceptance (the file is stored and the
configuration section is shown; analysis itself only starts later from the
configuration screen). -/
inductive UploadOutcome where
  | ignored : UploadOutcome
  | rejected (message : String) : UploadOutcome
  | accepted : UploadOutcome
deriving DecidableEq

/-- Embedded from frontend/app.js handleVideoUpload (lines 117 to 133): bail
out silently while analyzing; reject non-video MIME types and files over
100 * 1024 * 1024 bytes with an error toast, leaving the state unchanged;
otherwise store the file and move to the configuration screen. -/
def handleVideoUpload (st : UploadState) (file : UploadFile) :
    UploadState × UploadOutcome :=
  if st.isAnalyzing then (st, .ignored)
  else if !(strStartsWith file.type "video/") then
    (st, .rejected "Please select a valid video file")
  else if 100 * 1024 * 1024 < file.size then
    (st, .rejected "Video file is too large. Please select a file under 100MB")
  else
    (⟨st.isAnalyzing, some file, st.analysisData⟩, .accepted)

end TennisApp

namespace PatternSearch

/-- A search history entry of the pattern search engine: the query, the
result summary it produced, and its timestamp. -/
structure SearchEntry where
  query : String
  summary : String
  timestamp : ℕ
deriving DecidableEq

/-- Embedded from the pattern search engine addToHistory (src/unnamed/part_007
lines 498 to 511): unshift the new entry, then slice the history down to the
last 10 searches when it exceeds 10. -/
def addToHistory (q summary : String) (ts : ℕ) (history : List SearchEntry) :
    List SearchEntry :=
  let h := ⟨q, summary, ts⟩ :: history
  if 10 < h.length then h.take 10 else h

end PatternSearch

namespace TennisCore

/-- A sample configuration used by the concrete witnesses: onset 50, offset
10, duration bounds 100 to 3000 ms, ambiguity margin 100, ambiguous cap 700
below the certain threshold 900, score floor 250, unknown floor 300, idle gap
2000 ms. -/
def sampleCfg : Config :=
  ⟨500, 500, 50, 10, 2, 100, 3000, 100, 700, 900, 250, 300, 2000⟩

/-- The sample configuration with the idle gap widened to 3000 ms. -/
def sampleCfgWide : Config :=
  ⟨500, 500, 50, 10, 2, 100, 3000, 100, 700, 900, 250, 300, 3000⟩

/-- A two-frame session in which the pose collaborator never detected any
landmark. -/
def stillFrames : List Frame := [⟨0, 0, []⟩, ⟨1, 100, []⟩]

/-- A classified forehand event spanning 0 to 2000 ms with confidence 900. -/
def evA : StrokeEvent := ⟨.forehand, 0, 2000, 1000, 900, 80⟩

/-- A classified backhand event spanning 1000 to 3000 ms with confidence 500,
overlapping evA. -/
def evB : StrokeEvent := ⟨.backhand, 1000, 3000, 2000, 500, 60⟩

/-- A serve event starting 2500 ms after evA, clear of its span. -/
def evC : StrokeEvent := ⟨.serve, 2500, 3500, 3000, 800, 70⟩

/-- A two-event timeline whose single start gap of 2500 ms lies between the
two sample idle-gap settings. -/
def sampleTimeline : List StrokeEvent := [evA, evC]

/-- A FALLING segmenter state holding a window started at 1000 ms, peak at
1400 ms with peak energy 80, previous energy 30. -/
def spikeState : SegState := .falling 1000 1400 80 30

/-- A motion sample whose energy 40 is above the sample offset and above the
previous energy, a secondary spike. -/
def spikeSample : MotionSample := ⟨1600, 40⟩

/-- A score list whose top two scores differ by less than the sample
ambiguity margin. -/
def sampleScores : List (StrokeType × ℤ) := [(.forehand, 750), (.backhand, 700)]

end TennisCore

namespace TennisApp

/-- Upload state during an ongoing analysis. -/
def busyState : UploadState := ⟨true, none, none⟩

/-- Upload state with no ongoing analysis and nothing stored. -/
def idleState : UploadState := ⟨false, none, none⟩

/-- A video file one byte over the 100MB limit. -/
def bigFile : UploadFile := ⟨"video/mp4", 104857601⟩

/-- A one-stroke timeline used by the randomness counterexample. -/
def fhTimeline : List TimelineStroke := [⟨"forehand", 0, 800⟩]

end TennisApp

namespace PatternSearch

/-- A search history that is exactly full. -/
def fullHistory : List SearchEntry := List.replicate 10 ⟨"old query", "old summary", 0⟩

end PatternSearch

namespace TennisCore

theorem dedupGo_mem : ∀ (l : List StrokeEvent) (a x : StrokeEvent),
    x ∈ dedupGo a l → x = a ∨ x ∈ l := by
  intro l
  induction l with
  | nil =>
    intro a x hx
    simp [dedupGo] at hx
    exact Or.inl hx
  | cons b rest ih =>
    intro a x hx
    simp only [dedupGo] at hx
    by_cases hov : overlaps a b
    · rw [if_pos hov] at hx
      by_cases hc : a.confidence < b.confidence
      · rw [if_pos hc] at hx
        rcases ih b x hx with h | h
        · exact Or.inr (by simp [h])
        · exact Or.inr (by simp [h])
      · rw [if_neg hc] at hx
        rcases ih a x hx with h | h
        · exact Or.inl h
        · exact Or.inr (by simp [h])
    · rw [if_neg hov] at hx
      rcases List.mem_cons.mp hx with h | h
      · exact Or.inl h
      · rcases ih b x h with h2 | h2
        · exact Or.inr (by simp [h2])
        · exact Or.inr (by simp [h2])

theorem dedupGo_sorted : ∀ (l : List StrokeEvent) (a : StrokeEvent),
    List.Sorted startLE (a :: l) → List.Sorted startLE (dedupGo a l) := by
  intro l
  induction l with
  | nil =>
    intro a _
    simp [dedupGo]
  | cons b rest ih =>
    intro a hs
    rw [List.sorted_cons] at hs
    obtain ⟨ha, hbs⟩ := hs
    simp only [dedupGo]
    by_cases hov : overlaps a b
    · rw [if_pos hov]
      by_cases hc : a.confidence < b.confidence
      · rw [if_pos hc]
        exact ih b hbs
      · rw [if_neg hc]
        apply ih a
        rw [List.sorted_cons] at hbs ⊢
        exact ⟨fun c hc2 => ha c (by simp [hc2]), hbs.2⟩
    · rw [if_neg hov]
      rw [List.sorted_cons]
      refine ⟨?_, ih b hbs⟩
      intro c hc2
      rcases dedupGo_mem rest b c hc2 with h | h
      · exact h ▸ ha b (by simp)
      · exact ha c (by simp [h])

theorem dedupGo_no_overlap : ∀ (l : List StrokeEvent) (a : StrokeEvent),
    (∀ e ∈ a :: l, e.start_sec < e.end_sec) → List.Sorted startLE (a :: l) →
    List.Pairwise (fun x y => ¬ overlaps x y) (dedupGo a l) := by
  intro l
  induction l with
  | nil =>
    intro a _ _
    simp [dedupGo]
  | cons b rest ih =>
    intro a hwf hs
    rw [List.sorted_cons] at hs
    obtain ⟨ha, hbs⟩ := hs
    simp only [dedupGo]
    by_cases hov : overlaps a b
    · rw [if_pos hov]
      by_cases hc : a.confidence < b.confidence
      · rw [if_pos hc]
        refine ih b (fun e he => hwf e ?_) hbs
        simp at he ⊢
        tauto
      · rw [if_neg hc]
        refine ih a (fun e he => hwf e ?_) ?_
        · simp at he ⊢
          tauto
        · rw [List.sorted_cons] at hbs ⊢
          exact ⟨fun c hc2 => ha c (by simp [hc2]), hbs.2⟩
    · rw [if_neg hov]
      rw [List.pairwise_cons]
      constructor
      · have hab : a.end_sec ≤ b.start_sec := by
          by_contra hcon
          push_neg at hcon
          exact hov ⟨lt_of_le_of_lt (ha b (by simp)) (hwf b (by simp)), hcon⟩
        intro c hc2
        have hbc : b.start_sec ≤ c.start_sec := by
          rcases dedupGo_mem rest b c hc2 with h | h
          · rw [h]
          · exact (List.sorted_cons.mp hbs).1 c h
        intro hoc
        exact absurd hoc.2 (not_lt.mpr (le_trans hab hbc))
      · refine ih b (fun e he => hwf e ?_) hbs
        simp at he ⊢
        tauto

theorem dedupOverlaps_sorted (l : List StrokeEvent) (hs : List.Sorted startLE l) :
    List.Sorted startLE (dedupOverlaps l) := by
  cases l with
  | nil => simp [dedupOverlaps]
  | cons a rest => exact dedupGo_sorted rest a hs

theorem dedupOverlaps_no_overlap (l : List StrokeEvent)
    (hwf : ∀ e ∈ l, e.start_sec < e.end_sec) (hs : List.Sorted startLE l) :
    List.Pairwise (fun x y => ¬ overlaps x y) (dedupOverlaps l) := by
  cases l with
  | nil => simp [dedupOverlaps]
  | cons a rest => exact dedupGo_no_overlap rest a hwf hs

theorem dedupOverlaps_mem (l : List StrokeEvent) (x : StrokeEvent)
    (hx : x ∈ dedupOverlaps l) : x ∈ l := by
  cases l with
  | nil => simp [dedupOverlaps] at hx
  | cons a rest =>
    rcases dedupGo_mem rest a x hx with h | h
    · simp [h]
    · simp [h]

theorem assemble_sorted (cfg : Config) (l : List StrokeEvent) :
    List.Sorted startLE (assemble cfg l) :=
  dedupOverlaps_sorted _ (List.sorted_insertionSort startLE _)

theorem assemble_mem (cfg : Config) (l : List StrokeEvent) (x : StrokeEvent)
    (hx : x ∈ assemble cfg l) : x ∈ l := by
  have h1 := dedupOverlaps_mem _ x hx
  have h2 := (List.perm_insertionSort startLE (l.filter (keepEvent cfg))).subset h1
  exact List.mem_of_mem_filter h2

theorem assemble_no_overlap (cfg : Config) (l : List StrokeEvent)
    (hwf : ∀ e ∈ l, e.start_sec < e.end_sec) :
    List.Pairwise (fun x y => ¬ overlaps x y) (assemble cfg l) := by
  apply dedupOverlaps_no_overlap
  · intro e he
    apply hwf
    exact List.mem_of_mem_filter
      ((List.perm_insertionSort startLE (l.filter (keepEvent cfg))).subset he)
  · exact List.sorted_insertionSort startLE _

theorem segStep_emit_bounds (cfg : Config) (st : SegState) (s : MotionSample)
    (st2 : SegState) (w : CandidateWindow)
    (h : segStep cfg st s = (st2, some w)) :
    cfg.min_duration ≤ w.end_sec - w.start_sec ∧
    w.end_sec - w.start_sec ≤ cfg.max_duration := by
  cases st with
  | idle =>
    simp only [segStep] at h
    split at h <;> simp at h
  | rising start peak peakE lastE flat =>
    simp only [segStep] at h
    split at h
    · simp at h
    · split at h <;> simp at h
  | peakHeld start peak peakE lastE =>
    simp only [segStep] at h
    split at h
    · simp at h
    · split at h <;> simp at h
  | falling start peak peakE lastE =>
    simp only [segStep] at h
    split at h
    · rw [Prod.mk.injEq] at h
      obtain ⟨_, h2⟩ := h
      split at h2
      · next hcond =>
        rw [Option.some.injEq] at h2
        subst h2
        exact hcond
      · simp at h2
    · split at h <;> simp at h

theorem segRun_emit_bounds (cfg : Config) :
    ∀ (samples : List MotionSample) (st : SegState) (w : CandidateWindow),
      w ∈ segRun cfg st samples →
      cfg.min_duration ≤ w.end_sec - w.start_sec ∧
      w.end_sec - w.start_sec ≤ cfg.max_duration := by
  intro samples
  induction samples with
  | nil =>
    intro st w hw
    simp [segRun] at hw
  | cons s rest ih =>
    intro st w hw
    rcases h2 : segStep cfg st s with ⟨st2, wopt⟩
    cases wopt with
    | none =>
      simp only [segRun, h2] at hw
      exact ih st2 w hw
    | some w0 =>
      simp only [segRun, h2] at hw
      rcases List.mem_cons.mp hw with h | h
      · exact h ▸ segStep_emit_bounds cfg st s st2 w0 h2
      · exact ih st2 w h

theorem segRun_quiet (cfg : Config) :
    ∀ (samples : List MotionSample),
      (∀ s ∈ samples, s.energy ≤ cfg.onset) → segRun cfg .idle samples = [] := by
  intro samples
  induction samples with
  | nil =>
    intro _
    simp [segRun]
  | cons s rest ih =>
    intro hq
    have hstep : segStep cfg .idle s = (.idle, none) := by
      simp only [segStep]
      rw [if_neg (not_lt.mpr (hq s (by simp)))]
    simp only [segRun, hstep]
    exact ih (fun x hx => hq x (by simp [hx]))

theorem classifyWindow_start (cfg : Config) (w : CandidateWindow) :
    (classifyWindow cfg w).start_sec = w.start_sec := rfl

theorem classifyWindow_end (cfg : Config) (w : CandidateWindow) :
    (classifyWindow cfg w).end_sec = w.end_sec := rfl

end TennisCore

namespace TennisCore

/-- Claim C1: for every session, the Timeline produced by a completed run is
an ordered sequence of StrokeEvent that is non-decreasing by start_sec, and
no two events in it overlap in the half-open interval from start_sec to
end_sec. -/
theorem timeline_sorted_and_nonoverlapping (cfg : Config) (frames : List Frame)
    (tl : List StrokeEvent) (an : SessionAnalytics)
    (hmin : 0 < cfg.min_duration)
    (hrun : analyzeSession cfg frames = .ok (tl, an)) :
    List.Sorted startLE tl ∧ List.Pairwise (fun a b => ¬ overlaps a b) tl := by
  have htl : tl = (pipelineRun cfg frames).1 := by
    unfold analyzeSession at hrun
    split at hrun
    · exact absurd hrun (by simp)
    · split at hrun
      · exact absurd hrun (by simp)
      · exact (congrArg Prod.fst (Except.ok.inj hrun)).symm
  subst htl
  have hwf : ∀ e ∈ (segment cfg (extractMotion (conditionFrames cfg frames))).map
      (classifyWindow cfg), e.start_sec < e.end_sec := by
    intro e he
    rcases List.mem_map.mp he with ⟨w, hw, rfl⟩
    have hb := segRun_emit_bounds cfg _ .idle w hw
    rw [classifyWindow_start, classifyWindow_end]
    omega
  exact ⟨assemble_sorted cfg _, assemble_no_overlap cfg _ hwf⟩

theorem timeline_sorted_and_nonoverlapping_witness :
    0 < sampleCfg.min_duration ∧
    analyzeSession sampleCfg stillFrames = .ok ([], aggregate sampleCfg []) ∧
    (List.Sorted startLE [] ∧
     List.Pairwise (fun a b => ¬ overlaps a b) ([] : List StrokeEvent)) :=
  ⟨by decide, by rfl,
   timeline_sorted_and_nonoverlapping sampleCfg stillFrames [] (aggregate sampleCfg [])
     (by decide) (by rfl)⟩

/-- Claim C3: a structurally valid session whose motion energy never rises
above the onset threshold (the all-landmarks-missing session is the witness
below) completes without error with an empty Timeline and a SessionAnalytics
whose count is zero for every stroke type. -/
theorem quiet_session_returns_empty_timeline (cfg : Config) (frames : List Frame)
    (hne : frames.isEmpty = false) (hmono : timesMonotone frames = true)
    (hquiet : ∀ s ∈ extractMotion (conditionFrames cfg frames), s.energy ≤ cfg.onset) :
    analyzeSession cfg frames = .ok ([], aggregate cfg []) ∧
    ∀ ty, (aggregate cfg []).count ty = 0 := by
  have hseg := segRun_quiet cfg _ hquiet
  have hpr : pipelineRun cfg frames = ([], aggregate cfg []) := by
    unfold pipelineRun
    rw [show segment cfg (extractMotion (conditionFrames cfg frames)) = [] from hseg]
    rfl
  constructor
  · unfold analyzeSession
    rw [hne, hmono]
    simp [hpr]
  · intro ty
    cases ty <;> rfl

theorem quiet_session_returns_empty_timeline_witness :
    stillFrames.isEmpty = false ∧ timesMonotone stillFrames = true ∧
    (∀ s ∈ extractMotion (conditionFrames sampleCfg stillFrames),
      s.energy ≤ sampleCfg.onset) ∧
    (analyzeSession sampleCfg stillFrames = .ok ([], aggregate sampleCfg []) ∧
     ∀ ty, (aggregate sampleCfg []).count ty = 0) :=
  ⟨by decide, by decide, by decide,
   quiet_session_returns_empty_timeline sampleCfg stillFrames
     (by decide) (by decide) (by decide)⟩

/-- Claim C4: for a pair of classified candidate events whose time spans
overlap, the Assembler retains exactly the higher-confidence one and the
lower-confidence one is absent from the final Timeline; and assembly only
ever selects events from its input, never merging two events into a new
one. -/
theorem overlapping_pair_kept_by_confidence (cfg : Config) (a b : StrokeEvent)
    (hov : overlaps a b) (hconf : b.confidence < a.confidence)
    (ha : a.stroke_type ≠ .unknown) (hb : b.stroke_type ≠ .unknown) :
    assemble cfg [a, b] = [a] ∧ b ∉ assemble cfg [a, b] ∧
    ∀ (l : List StrokeEvent) (e : StrokeEvent), e ∈ assemble cfg l → e ∈ l := by
  have hne : b ≠ a := fun h => absurd hconf (by rw [h]; exact lt_irrefl _)
  have hka : keepEvent cfg a = true := by simp [keepEvent, ha]
  have hkb : keepEvent cfg b = true := by simp [keepEvent, hb]
  have hfil : [a, b].filter (keepEvent cfg) = [a, b] := by
    simp [List.filter, hka, hkb]
  have hmain : assemble cfg [a, b] = [a] := by
    unfold assemble
    rw [hfil]
    by_cases hab : startLE a b
    · rw [show List.insertionSort startLE [a, b] = [a, b] from by
        simp [List.insertionSort, List.orderedInsert, hab]]
      simp only [dedupOverlaps, dedupGo]
      rw [if_pos hov, if_neg (not_lt.mpr (le_of_lt hconf))]
    · rw [show List.insertionSort startLE [a, b] = [b, a] from by
        simp [List.insertionSort, List.orderedInsert, hab]]
      simp only [dedupOverlaps, dedupGo]
      rw [if_pos (show overlaps b a from ⟨hov.2, hov.1⟩), if_pos hconf]
  refine ⟨hmain, ?_, fun l e he => assemble_mem cfg l e he⟩
  rw [hmain]
  simp [hne]

theorem overlapping_pair_kept_by_confidence_witness :
    overlaps evA evB ∧ evB.confidence < evA.confidence ∧
    evA.stroke_type ≠ .unknown ∧ evB.stroke_type ≠ .unknown ∧
    (assemble sampleCfg [evA, evB] = [evA] ∧ evB ∉ assemble sampleCfg [evA, evB] ∧
     ∀ (l : List StrokeEvent) (e : StrokeEvent), e ∈ assemble sampleCfg l → e ∈ l) :=
  ⟨by decide, by decide, by decide, by decide,
   overlapping_pair_kept_by_confidence sampleCfg evA evB
     (by decide) (by decide) (by decide) (by decide)⟩

/-- Claim C5: for a candidate whose top two classification scores differ by
less than the configured ambiguity margin, the returned confidence is
strictly below the certain threshold and strictly below the maximal
confidence 1000 (the fixed-point model of 1.0). -/
theorem ambiguous_scores_cap_confidence (cfg : Config)
    (scores rest r2 : List (StrokeType × ℤ)) (best b2 : StrokeType × ℤ)
    (hpick : pickBest scores = some (best, rest))
    (hpick2 : pickBest rest = some (b2, r2))
    (hfloor : cfg.score_floor ≤ best.2)
    (hmargin : best.2 - b2.2 < cfg.ambiguity_margin)
    (hcap : cfg.ambiguous_cap < cfg.certain_threshold)
    (hcert : cfg.certain_threshold ≤ 1000) :
    (classifyScores cfg scores).2 < cfg.certain_threshold ∧
    (classifyScores cfg scores).2 < 1000 := by
  simp only [classifyScores, hpick, hpick2]
  rw [if_neg (not_lt.mpr hfloor), if_pos hmargin]
  constructor
  · exact lt_of_le_of_lt (min_le_right _ _) hcap
  · exact lt_of_le_of_lt (min_le_right _ _) (lt_of_lt_of_le hcap hcert)

theorem ambiguous_scores_cap_confidence_witness :
    pickBest sampleScores = some ((.forehand, 750), [(.backhand, 700)]) ∧
    pickBest [((.backhand : StrokeType), (700 : ℤ))] = some ((.backhand, 700), []) ∧
    sampleCfg.score_floor ≤ 750 ∧ (750 : ℤ) - 700 < sampleCfg.ambiguity_margin ∧
    sampleCfg.ambiguous_cap < sampleCfg.certain_threshold ∧
    sampleCfg.certain_threshold ≤ 1000 ∧
    ((classifyScores sampleCfg sampleScores).2 < sampleCfg.certain_threshold ∧
     (classifyScores sampleCfg sampleScores).2 < 1000) :=
  ⟨by decide, by decide, by decide, by decide, by decide, by decide,
   ambiguous_scores_cap_confidence sampleCfg sampleScores [(.backhand, 700)] []
     (.forehand, 750) (.backhand, 700)
     (by decide) (by decide) (by decide) (by decide) (by decide) (by decide)⟩

theorem rallyBoundaries_antitone (g1 g2 : ℤ) (hg : g1 ≤ g2) :
    ∀ (l : List StrokeEvent) (p : StrokeEvent),
      rallyBoundaries g2 p l ≤ rallyBoundaries g1 p l := by
  intro l
  induction l with
  | nil =>
    intro p
    simp [rallyBoundaries]
  | cons e rest ih =>
    intro p
    simp only [rallyBoundaries]
    have hr := ih e
    by_cases h2 : g2 < e.start_sec - p.start_sec
    · rw [if_pos h2, if_pos (lt_of_le_of_lt hg h2)]
      omega
    · rw [if_neg h2]
      split <;> omega

/-- Claim C6: for a fixed Timeline, the rally count computed by the
Aggregator is antitone in the idle-gap threshold: a configuration with a
larger idle gap yields at most as many rallies. -/
theorem rally_count_antitone_in_idle_gap (cfg1 cfg2 : Config)
    (tl : List StrokeEvent) (hg : cfg1.idle_gap ≤ cfg2.idle_gap) :
    (aggregate cfg2 tl).rally_count ≤ (aggregate cfg1 tl).rally_count := by
  show rallyCount cfg2.idle_gap tl ≤ rallyCount cfg1.idle_gap tl
  cases tl with
  | nil => simp [rallyCount]
  | cons e rest =>
    simp only [rallyCount]
    have := rallyBoundaries_antitone cfg1.idle_gap cfg2.idle_gap hg rest e
    omega

theorem rally_count_antitone_in_idle_gap_witness :
    sampleCfg.idle_gap ≤ sampleCfgWide.idle_gap ∧
    (aggregate sampleCfgWide sampleTimeline).rally_count ≤
      (aggregate sampleCfg sampleTimeline).rally_count :=
  ⟨by decide,
   rally_count_antitone_in_idle_gap sampleCfg sampleCfgWide sampleTimeline (by decide)⟩

/-- Claim C7: every run of the pipeline entry point either returns one
complete Timeline plus SessionAnalytics pair, or fails with a structural
error, and the structural conditions (empty session, non-monotonic
timestamps) are exactly the conditions under which it aborts. -/
theorem run_returns_pair_or_fails_structurally (cfg : Config) (frames : List Frame) :
    (frames.isEmpty = true ∧ analyzeSession cfg frames = .error .emptySession) ∨
    (timesMonotone frames = false ∧
      analyzeSession cfg frames = .error .nonMonotonicTimestamps) ∨
    (∃ tl an, analyzeSession cfg frames = .ok (tl, an)) := by
  by_cases h1 : frames.isEmpty = true
  · exact Or.inl ⟨h1, by simp [analyzeSession, h1]⟩
  · have h1f : frames.isEmpty = false := by
      revert h1
      cases frames.isEmpty <;> simp
    by_cases h2 : timesMonotone frames = false
    · refine Or.inr (Or.inl ⟨h2, ?_⟩)
      unfold analyzeSession
      rw [h1f, h2]
      simp
    · have h2t : timesMonotone frames = true := by
        revert h2
        cases timesMonotone frames <;> simp
      refine Or.inr (Or.inr ⟨(pipelineRun cfg frames).1, (pipelineRun cfg frames).2, ?_⟩)
      unfold analyzeSession
      rw [h1f, h2t]
      simp

/-- Claim C8: whenever a segmenter step lands in RISING while a window was
already being built (a secondary energy spike in RISING, PEAK_HELD or
FALLING), the window keeps its original start and nothing is emitted: the
stroke is never fragmented into two candidate windows. -/
theorem secondary_spike_extends_current_window (cfg : Config) (st : SegState)
    (s : MotionSample) (t0 : ℤ)
    (hstart : st.windowStart = some t0)
    (hris : ((segStep cfg st s).1).isRising = true) :
    ((segStep cfg st s).1).windowStart = some t0 ∧ (segStep cfg st s).2 = none := by
  cases st with
  | idle => simp [SegState.windowStart] at hstart
  | rising start peak peakE lastE flat =>
    simp only [SegState.windowStart, Option.some.injEq] at hstart
    subst hstart
    by_cases h1 : lastE < s.energy
    · simp [segStep, h1, SegState.windowStart]
    · by_cases h2 : cfg.peak_hold_n ≤ flat + 1
      · simp [segStep, h1, h2, SegState.isRising] at hris
      · simp [segStep, h1, h2, SegState.windowStart]
  | peakHeld start peak peakE lastE =>
    simp only [SegState.windowStart, Option.some.injEq] at hstart
    subst hstart
    by_cases h1 : lastE < s.energy
    · simp [segStep, h1, SegState.windowStart]
    · by_cases h2 : s.energy < lastE
      · simp [segStep, h1, h2, SegState.isRising] at hris
      · simp [segStep, h1, h2, SegState.isRising] at hris
  | falling start peak peakE lastE =>
    simp only [SegState.windowStart, Option.some.injEq] at hstart
    subst hstart
    by_cases h1 : s.energy < cfg.offset
    · simp [segStep, h1, SegState.isRising] at hris
    · by_cases h2 : lastE < s.energy
      · simp [segStep, h1, h2, SegState.windowStart]
      · simp [segStep, h1, h2, SegState.isRising] at hris

theorem secondary_spike_extends_current_window_witness :
    spikeState.windowStart = some 1000 ∧
    ((segStep sampleCfg spikeState spikeSample).1).isRising = true ∧
    (((segStep sampleCfg spikeState spikeSample).1).windowStart = some 1000 ∧
     (segStep sampleCfg spikeState spikeSample).2 = none) :=
  ⟨by decide, by decide,
   secondary_spike_extends_current_window sampleCfg spikeState spikeSample 1000
     (by decide) (by decide)⟩

end TennisCore

namespace TennisApp

/-- Claim C2 counterexample: the per-stroke enhanced metrics rendered next to
the stats are drawn from Math.random, so two renderings of the same one-stroke
timeline under two different random streams differ. -/
theorem enhanced_metrics_depend_on_randomness :
    renderAnalysis fhTimeline (fun _ => 0) ≠ renderAnalysis fhTimeline (fun _ => 500) := by
  decide

/-- Claim C2 as amended: the stats computed by calculateStats are a pure
function of the timeline, independent of the Math.random stream that the
enhanced per-stroke metrics consume. -/
theorem stats_independent_of_randomness (timeline : List TimelineStroke)
    (r1 r2 : ℕ → ℤ) :
    (renderAnalysis timeline r1).1 = (renderAnalysis timeline r2).1 := rfl

/-- Claim C9 counterexample: while an analysis is in progress, an over-limit
file is dropped silently, with no error notification. -/
theorem oversized_upload_ignored_during_analysis :
    handleVideoUpload busyState bigFile = (busyState, .ignored) ∧
    100 * 1024 * 1024 < bigFile.size := by
  decide

/-- Claim C9 as amended: when no analysis is in progress, a file over the
100 * 1024 * 1024 byte limit is rejected with an error notification and the
handler returns with the stored video and analysis data unchanged and without
reaching the accepted outcome that leads toward analysis. -/
theorem oversized_upload_rejected_when_idle (st : UploadState) (file : UploadFile)
    (hidle : st.isAnalyzing = false)
    (hsize : 100 * 1024 * 1024 < file.size) :
    ∃ msg, handleVideoUpload st file = (st, .rejected msg) := by
  by_cases hv : strStartsWith file.type "video/"
  · refine ⟨"Video file is too large. Please select a file under 100MB", ?_⟩
    simp [handleVideoUpload, hidle, hv, hsize]
  · refine ⟨"Please select a valid video file", ?_⟩
    simp [handleVideoUpload, hidle, hv]

theorem oversized_upload_rejected_when_idle_witness :
    idleState.isAnalyzing = false ∧ 100 * 1024 * 1024 < bigFile.size ∧
    ∃ msg, handleVideoUpload idleState bigFile = (idleState, .rejected msg) :=
  ⟨by decide, by decide,
   oversized_upload_rejected_when_idle idleState bigFile (by decide) (by decide)⟩

end TennisApp

namespace PatternSearch

/-- Claim C10: after adding an entry to a history of at most 10 searches, the
history holds at most 10 entries with the newest at the front; a non-full
history is extended in place, and a full history evicts exactly its oldest
(last) entry. -/
theorem search_history_bounded_mru (q summary : String) (ts : ℕ)
    (history : List SearchEntry) (hlen : history.length ≤ 10) :
    (addToHistory q summary ts history).length ≤ 10 ∧
    (addToHistory q summary ts history).head? = some ⟨q, summary, ts⟩ ∧
    (history.length < 10 → addToHistory q summary ts history = ⟨q, summary, ts⟩ :: history) ∧
    (history.length = 10 →
      addToHistory q summary ts history = ⟨q, summary, ts⟩ :: history.dropLast) := by
  have he : addToHistory q summary ts history =
      if 10 < history.length + 1 then (⟨q, summary, ts⟩ : SearchEntry) :: history.take 9
      else (⟨q, summary, ts⟩ : SearchEntry) :: history := by
    simp only [addToHistory, List.length_cons]
    split
    · rw [show (10 : ℕ) = 9 + 1 from rfl, List.take_succ_cons]
    · rfl
  by_cases hfull : history.length = 10
  · have hcond : 10 < history.length + 1 := by omega
    rw [he, if_pos hcond]
    refine ⟨?_, rfl, ?_, ?_⟩
    · simp [List.length_take]
    · intro hlt
      omega
    · intro _
      rw [List.dropLast_eq_take, hfull]
  · have hlt : history.length < 10 := lt_of_le_of_ne hlen hfull
    have hcond : ¬ 10 < history.length + 1 := by omega
    rw [he, if_neg hcond]
    refine ⟨?_, rfl, fun _ => rfl, ?_⟩
    · simp
      omega
    · intro heq
      omega

theorem search_history_bounded_mru_witness :
    fullHistory.length ≤ 10 ∧
    ((addToHistory "new query" "new summary" 5 fullHistory).length ≤ 10 ∧
     (addToHistory "new query" "new summary" 5 fullHistory).head? =
       some ⟨"new query", "new summary", 5⟩ ∧
     (fullHistory.length < 10 →
       addToHistory "new query" "new summary" 5 fullHistory =
         ⟨"new query", "new summary", 5⟩ :: fullHistory) ∧
     (fullHistory.length = 10 →
       addToHistory "new query" "new summary" 5 fullHistory =
         ⟨"new query", "new summary", 5⟩ :: fullHistory.dropLast)) :=
  ⟨by decide,
   search_history_bounded_mru "new query" "new summary" 5 fullHistory (by decide)⟩

end PatternSearch
